import Mathlib

/-!
Verification of the multi-threaded C socket server
(`src/main.c`, Windows section, plus the POSIX fragments).

Each C component is shallowly embedded as a pure Lean function on an
explicit state; the concurrency primitives (critical sections, semaphore
waits, socket calls) are reflected as events in an explicit trace where a
claim talks about them.  Machine integers are modelled as `Int`/`Nat`
with explicit reduction modulo `2 ^ 32` where overflow matters.
-/

set_option maxRecDepth 4096

namespace ServidorC

/-! ## LRU cache (`src/main.c` lines 203-305)

A cache state is the doubly-linked node list flattened into a Lean list,
head (`cabeca`) first, tail (`cauda`) last, together with the `capacidade`
and `tamanho` counters that the C struct carries.  The `mutex` field and
the heap management (`malloc`/`free`/`memcpy`) have no observable effect on
the sequential contract and are dropped. -/

structure CacheNode (K V : Type) where
  chave : K
  dados : V
  timestamp : Nat
deriving DecidableEq

structure LRUCache (K V : Type) where
  entries : List (CacheNode K V)
  capacidade : Nat
  tamanho : Nat
deriving DecidableEq

/-- `criar_cache` (lines 203-211): empty list, `tamanho = 0`. -/
def criar_cache (K V : Type) (capacidade : Nat) : LRUCache K V :=
  { entries := [], capacidade := capacidade, tamanho := 0 }

/-- The scan loop shared by `cache_get` and `cache_put` (lines 240-251 and
258-272) combined with `remover_node_cache` (lines 213-224): walk the list
from `cabeca`; on the first node whose key compares equal, splice it out and
return it together with the remaining list.  Returns `none` when no node
matches (the `while` loop falls through). -/
def buscarRemover {K V : Type} [DecidableEq K] :
    List (CacheNode K V) → K → Option (CacheNode K V × List (CacheNode K V))
  | [], _ => none
  | n :: resto, chave =>
    if n.chave = chave then some (n, resto)
    else
      match buscarRemover resto chave with
      | none => none
      | some (m, resto2) => some (m, n :: resto2)

/-- `cache_get` (lines 238-254): on a hit the node is spliced out
(`remover_node_cache`), re-inserted at the head (`adicionar_no_topo`),
its timestamp refreshed, and its data returned; on a miss the state is
untouched and `NULL` (here `none`) is returned.  `agora` stands for the
`time(NULL)` call. -/
def cache_get {K V : Type} [DecidableEq K]
    (cache : LRUCache K V) (chave : K) (agora : Nat) :
    Option V × LRUCache K V :=
  match buscarRemover cache.entries chave with
  | none => (none, cache)
  | some (m, resto) =>
      (some m.dados, { cache with entries := { m with timestamp := agora } :: resto })

/-- `cache_put` (lines 256-290): if the key is already resident, overwrite
its data and timestamp and move the node to the head (the C code mutates
the found node in place; since its `chave` equals the argument, consing a
fresh node with the same key is the same list).  Otherwise allocate a new
node at the head and increment `tamanho`; if `tamanho` now exceeds
`capacidade`, unlink and free `cauda` (the last node) and decrement
`tamanho`. -/
def cache_put {K V : Type} [DecidableEq K]
    (cache : LRUCache K V) (chave : K) (dados : V) (agora : Nat) :
    LRUCache K V :=
  match buscarRemover cache.entries chave with
  | some (_, resto) =>
      { cache with entries := ⟨chave, dados, agora⟩ :: resto }
  | none =>
      let entries2 := (⟨chave, dados, agora⟩ : CacheNode K V) :: cache.entries
      let tamanho2 := cache.tamanho + 1
      if cache.capacidade < tamanho2 then
        { cache with entries := entries2.dropLast, tamanho := tamanho2 - 1 }
      else
        { cache with entries := entries2, tamanho := tamanho2 }

/-- Keys of the resident entries, most recently used first. -/
def chavesDe {K V : Type} (cache : LRUCache K V) : List K :=
  cache.entries.map CacheNode.chave

/-! ### Facts about the scan -/

theorem buscarRemover_eq_none {K V : Type} [DecidableEq K]
    (l : List (CacheNode K V)) (k : K) :
    buscarRemover l k = none ↔ k ∉ l.map CacheNode.chave := by
  induction l with
  | nil => simp [buscarRemover]
  | cons n resto ih =>
    by_cases h : n.chave = k
    · simp [buscarRemover, h]
    · simp only [buscarRemover, if_neg h, List.map_cons, List.mem_cons, not_or]
      cases hb : buscarRemover resto k with
      | none =>
        have hm := ih.mp hb
        have hne : ¬ k = n.chave := fun he => h he.symm
        simp [hm, hne]
      | some p =>
        have hm : k ∈ resto.map CacheNode.chave := by
          by_contra hcon
          rw [ih.mpr hcon] at hb
          cases hb
        simp [hm]

/-- First-occurrence removal on plain key lists, mirroring what the splice
does to `List.map CacheNode.chave`. -/
def eraseKey {K : Type} [DecidableEq K] : List K → K → List K
  | [], _ => []
  | x :: xs, k => if x = k then xs else x :: eraseKey xs k

theorem buscarRemover_eq_some {K V : Type} [DecidableEq K]
    {l : List (CacheNode K V)} {k : K} {m : CacheNode K V}
    {resto : List (CacheNode K V)}
    (h : buscarRemover l k = some (m, resto)) :
    m.chave = k ∧ k ∈ l.map CacheNode.chave ∧
      resto.map CacheNode.chave = eraseKey (l.map CacheNode.chave) k ∧
      l.length = resto.length + 1 := by
  induction l generalizing m resto with
  | nil => simp [buscarRemover] at h
  | cons n cauda ih =>
    by_cases hn : n.chave = k
    · simp only [buscarRemover, if_pos hn] at h
      obtain ⟨rfl, rfl⟩ := by simpa using h
      simp [eraseKey, hn]
    · simp only [buscarRemover, if_neg hn] at h
      cases hb : buscarRemover cauda k with
      | none => simp [hb] at h
      | some p =>
        obtain ⟨m2, resto2⟩ := p
        simp only [hb] at h
        obtain ⟨rfl, rfl⟩ := by simpa using h
        obtain ⟨h1, h2, h3, h4⟩ := ih hb
        refine ⟨h1, by simp [h2], ?_, by simp [h4]⟩
        simp [eraseKey, hn, h3]

theorem eraseKey_of_not_mem {K : Type} [DecidableEq K]
    {l : List K} {k : K} (h : k ∉ l) : eraseKey l k = l := by
  induction l with
  | nil => rfl
  | cons x xs ih =>
    simp only [List.mem_cons, not_or] at h
    have hx : ¬ x = k := fun he => h.1 he.symm
    simp [eraseKey, hx, ih h.2]

theorem length_eraseKey {K : Type} [DecidableEq K]
    {l : List K} {k : K} (h : k ∈ l) :
    (eraseKey l k).length + 1 = l.length := by
  induction l with
  | nil => simp at h
  | cons x xs ih =>
    by_cases hx : x = k
    · simp [eraseKey, hx]
    · have : k ∈ xs := by
        rcases List.mem_cons.mp h with h1 | h1
        · exact absurd h1.symm hx
        · exact h1
      simp [eraseKey, hx, ih this]

theorem mem_cons_eraseKey {K : Type} [DecidableEq K]
    {l : List K} {k : K} (h : k ∈ l) (x : K) :
    x ∈ k :: eraseKey l k ↔ x ∈ l := by
  induction l with
  | nil => simp at h
  | cons y ys ih =>
    by_cases hy : y = k
    · subst hy; simp [eraseKey]
    · have hk : k ∈ ys := by
        rcases List.mem_cons.mp h with h1 | h1
        · exact absurd h1.symm hy
        · exact h1
      simp only [eraseKey, if_neg hy]
      constructor
      · intro hx
        rcases List.mem_cons.mp hx with rfl | hx
        · exact List.mem_cons_of_mem _ hk
        · rcases List.mem_cons.mp hx with rfl | hx
          · exact List.mem_cons_self _ _
          · exact List.mem_cons_of_mem _ ((ih hk).mp (List.mem_cons_of_mem _ hx))
      · intro hx
        rcases List.mem_cons.mp hx with rfl | hx
        · exact List.mem_cons_of_mem _ (List.mem_cons_self _ _)
        · rcases List.mem_cons.mp ((ih hk).mpr hx) with rfl | hx2
          · exact List.mem_cons_self _ _
          · exact List.mem_cons_of_mem _ (List.mem_cons_of_mem _ hx2)

/-! ### Claim C3: put/get round trip -/

/-- Repeated `cache_get` of the same key, as in claim C4. -/
def getIterado {K V : Type} [DecidableEq K]
    (cache : LRUCache K V) (chave : K) (agora : Nat) : Nat → LRUCache K V
  | 0 => cache
  | n + 1 => (cache_get (getIterado cache chave agora n) chave agora).2

/-- C3 — On any cache whose capacity is positive and whose `tamanho`
counter agrees with the length of its node list (as it does in every
state the program constructs), `cache_put cache k v` immediately followed
by `cache_get k`, with no intervening operation, returns exactly `v`. -/
theorem cache_put_get_roundtrip {K V : Type} [DecidableEq K]
    (cache : LRUCache K V) (k : K) (v : V) (t1 t2 : Nat)
    (hcap : 0 < cache.capacidade)
    (hlen : cache.tamanho = cache.entries.length) :
    (cache_get (cache_put cache k v t1) k t2).1 = some v := by
  unfold cache_put
  cases hb : buscarRemover cache.entries k with
  | some p =>
    obtain ⟨m, resto⟩ := p
    simp [cache_get, buscarRemover]
  | none =>
    simp only
    by_cases hev : cache.capacidade < cache.tamanho + 1
    · simp only [if_pos hev]
      cases he : cache.entries with
      | nil =>
        exfalso
        rw [he] at hlen
        simp at hlen
        omega
      | cons e es =>
        simp [cache_get, buscarRemover, List.dropLast]
    · simp [if_neg hev, cache_get, buscarRemover]

/-- C3 witness at a concrete input: a fresh capacity-2 cache over
`Nat` keys and values. -/
theorem cache_put_get_roundtrip_witness :
    0 < (criar_cache Nat Nat 2).capacidade ∧
      (criar_cache Nat Nat 2).tamanho = (criar_cache Nat Nat 2).entries.length ∧
      (cache_get (cache_put (criar_cache Nat Nat 2) 5 7 0) 5 1).1 = some 7 :=
  ⟨by decide, by decide,
    cache_put_get_roundtrip (criar_cache Nat Nat 2) 5 7 0 1 (by decide) (by decide)⟩

/-! ### Claim C4: get on an absent key -/

/-- C4 — `cache_get` of a key not resident in the cache returns `none`
(the C code returns `NULL`, never an error) and leaves the cache state
completely unchanged; iterating the same absent `get` any number of times
never mutates the cache, in particular its size. -/
theorem cache_get_ausente {K V : Type} [DecidableEq K]
    (cache : LRUCache K V) (k : K) (agora : Nat)
    (h : k ∉ cache.entries.map CacheNode.chave) :
    cache_get cache k agora = (none, cache) ∧
      ∀ n : Nat, getIterado cache k agora n = cache ∧
        (getIterado cache k agora n).tamanho = cache.tamanho := by
  have hnone : buscarRemover cache.entries k = none :=
    (buscarRemover_eq_none cache.entries k).mpr h
  have hget : cache_get cache k agora = (none, cache) := by
    simp [cache_get, hnone]
  refine ⟨hget, ?_⟩
  intro n
  induction n with
  | zero => exact ⟨rfl, rfl⟩
  | succ n ih =>
    have : getIterado cache k agora (n + 1) = cache := by
      show (cache_get (getIterado cache k agora n) k agora).2 = cache
      rw [ih.1, hget]
    exact ⟨this, by rw [this]⟩

/-- C4 witness at a concrete input: key 9 is absent from a cache holding
only key 5. -/
theorem cache_get_ausente_witness :
    (9 ∉ (cache_put (criar_cache Nat Nat 2) 5 7 0).entries.map CacheNode.chave) ∧
      cache_get (cache_put (criar_cache Nat Nat 2) 5 7 0) 9 1 =
        (none, cache_put (criar_cache Nat Nat 2) 5 7 0) :=
  ⟨by decide,
    (cache_get_ausente (cache_put (criar_cache Nat Nat 2) 5 7 0) 9 1 (by decide)).1⟩

/-! ### Claim C9: put on a resident key is size- and key-set-preserving -/

/-- C9 — `cache_put` of a key already resident in the cache leaves the
`tamanho` counter, the number of nodes, and the set of resident keys
unchanged (only the key's value, timestamp and recency position move). -/
theorem cache_put_existente {K V : Type} [DecidableEq K]
    (cache : LRUCache K V) (k : K) (v : V) (agora : Nat)
    (h : k ∈ cache.entries.map CacheNode.chave) :
    (cache_put cache k v agora).tamanho = cache.tamanho ∧
      (cache_put cache k v agora).entries.length = cache.entries.length ∧
      ∀ x, x ∈ chavesDe (cache_put cache k v agora) ↔ x ∈ chavesDe cache := by
  cases hb : buscarRemover cache.entries k with
  | none =>
    exact absurd h (by simpa using (buscarRemover_eq_none cache.entries k).mp hb)
  | some p =>
    obtain ⟨m, resto⟩ := p
    obtain ⟨hm, hmem, hmap, hlen⟩ := buscarRemover_eq_some hb
    have hput : cache_put cache k v agora =
        { cache with entries := ⟨k, v, agora⟩ :: resto } := by
      simp [cache_put, hb]
    refine ⟨by rw [hput], by rw [hput]; simp [hlen], ?_⟩
    intro x
    rw [hput]
    show x ∈ (⟨k, v, agora⟩ :: resto : List (CacheNode K V)).map CacheNode.chave ↔ _
    simp only [List.map_cons, hmap]
    exact mem_cons_eraseKey hmem x

/-! ### Claim C1: the LRU invariant for arbitrary op sequences -/

/-- One client-visible cache operation. -/
inductive CacheOp (K V : Type)
  | put (chave : K) (dados : V)
  | get (chave : K)

/-- Apply one operation to the cache, `agora` being the current clock. -/
def aplicarOp {K V : Type} [DecidableEq K]
    (cache : LRUCache K V) (op : CacheOp K V) (agora : Nat) : LRUCache K V :=
  match op with
  | .put k v => cache_put cache k v agora
  | .get k => (cache_get cache k agora).2

/-- Run a sequence of operations, the clock ticking once per operation. -/
def runCache {K V : Type} [DecidableEq K] :
    List (CacheOp K V) → LRUCache K V → Nat → LRUCache K V
  | [], cache, _ => cache
  | op :: resto, cache, agora => runCache resto (aplicarOp cache op agora) (agora + 1)

/-- Modelled from the claim's words, not from the code: the
most-recently-touched keys, newest first, truncated to capacity `c`.  A
`put` touches its key; a `get` touches its key only when resident.  This is
the specification-side recency list against which the code is compared. -/
def lruTouch {K V : Type} [DecidableEq K] (c : Nat)
    (l : List K) : CacheOp K V → List K
  | .put k _ => (k :: eraseKey l k).take c
  | .get k => if k ∈ l then k :: eraseKey l k else l

/-- Specification-side run of the recency-list model. -/
def lruModelRun {K V : Type} [DecidableEq K] (c : Nat) :
    List (CacheOp K V) → List K → List K
  | [], l => l
  | op :: resto, l => lruModelRun c resto (lruTouch c l op)

/-- The simulation invariant tying a cache state to a model recency list. -/
def InvarianteLRU {K V : Type} (cache : LRUCache K V) (c : Nat) (m : List K) : Prop :=
  cache.capacidade = c ∧ chavesDe cache = m ∧
    cache.tamanho = cache.entries.length ∧ cache.entries.length ≤ c

theorem invariante_put {K V : Type} [DecidableEq K]
    {cache : LRUCache K V} {c : Nat} {m : List K}
    (hi : InvarianteLRU cache c m) (k : K) (v : V) (agora : Nat) :
    InvarianteLRU (cache_put cache k v agora) c
      (lruTouch (V := V) c m (.put k v)) := by
  obtain ⟨hc, hm, ht, hl⟩ := hi
  simp only [chavesDe] at hm
  cases hb : buscarRemover cache.entries k with
  | some p =>
    obtain ⟨nodo, resto⟩ := p
    obtain ⟨hk1, hk2, hk3, hk4⟩ := buscarRemover_eq_some hb
    have hput : cache_put cache k v agora =
        { cache with entries := ⟨k, v, agora⟩ :: resto } := by
      simp [cache_put, hb]
    have hkm : k ∈ m := by rw [← hm]; exact hk2
    have hlenm : (k :: eraseKey m k).length = m.length := by
      have := length_eraseKey hkm
      simp only [List.length_cons]
      omega
    have hmlen : m.length ≤ c := by
      rw [← hm]
      simpa using hl
    refine ⟨by rw [hput]; exact hc, ?_, ?_, ?_⟩
    · rw [hput]
      show (⟨k, v, agora⟩ :: resto : List (CacheNode K V)).map CacheNode.chave = _
      simp only [List.map_cons, lruTouch]
      rw [List.take_of_length_le (le_of_eq_of_le hlenm hmlen)]
      rw [hk3, hm]
    · rw [hput]
      show cache.tamanho = resto.length + 1
      omega
    · rw [hput]
      show resto.length + 1 ≤ c
      omega
  | none =>
    have hkm : k ∉ m := by
      rw [← hm]
      exact (buscarRemover_eq_none cache.entries k).mp hb
    have herase : eraseKey m k = m := eraseKey_of_not_mem hkm
    have hput0 : cache_put cache k v agora =
        (let entries2 := (⟨k, v, agora⟩ : CacheNode K V) :: cache.entries
         let tamanho2 := cache.tamanho + 1
         if cache.capacidade < tamanho2 then
           { cache with entries := entries2.dropLast, tamanho := tamanho2 - 1 }
         else
           { cache with entries := entries2, tamanho := tamanho2 }) := by
      simp [cache_put, hb]
    by_cases hev : cache.capacidade < cache.tamanho + 1
    · -- the new key overflows capacity: the tail node is evicted
      have hlc : cache.entries.length = c := by omega
      have hput : cache_put cache k v agora =
          { cache with
              entries := ((⟨k, v, agora⟩ : CacheNode K V) :: cache.entries).dropLast,
              tamanho := cache.tamanho + 1 - 1 } := by
        rw [hput0]
        simp [hev]
      refine ⟨by rw [hput]; exact hc, ?_, ?_, ?_⟩
      · rw [hput]
        show (((⟨k, v, agora⟩ : CacheNode K V) :: cache.entries).dropLast).map
            CacheNode.chave = _
        rw [List.map_dropLast, List.dropLast_eq_take]
        simp only [List.map_cons, List.length_cons, List.length_map, lruTouch, herase]
        rw [hm]
        congr 1
      · rw [hput]
        show cache.tamanho + 1 - 1 =
          (((⟨k, v, agora⟩ : CacheNode K V) :: cache.entries).dropLast).length
        rw [List.length_dropLast]
        simp only [List.length_cons]
        omega
      · rw [hput]
        show (((⟨k, v, agora⟩ : CacheNode K V) :: cache.entries).dropLast).length ≤ c
        rw [List.length_dropLast]
        simp only [List.length_cons]
        omega
    · -- room remains: simple insert at the head
      have hput : cache_put cache k v agora =
          { cache with
              entries := (⟨k, v, agora⟩ : CacheNode K V) :: cache.entries,
              tamanho := cache.tamanho + 1 } := by
        rw [hput0]
        simp [hev]
      have hlenk : (k :: m).length ≤ c := by
        have : m.length = cache.entries.length := by
          rw [← hm]; simp
        simp only [List.length_cons]
        omega
      refine ⟨by rw [hput]; exact hc, ?_, ?_, ?_⟩
      · rw [hput]
        show ((⟨k, v, agora⟩ : CacheNode K V) :: cache.entries).map CacheNode.chave = _
        simp only [List.map_cons, lruTouch, herase]
        rw [List.take_of_length_le hlenk, hm]
      · rw [hput]
        show cache.tamanho + 1 = cache.entries.length + 1
        omega
      · rw [hput]
        show cache.entries.length + 1 ≤ c
        have : m.length = cache.entries.length := by
          rw [← hm]; simp
        simp only [List.length_cons] at hlenk
        omega

theorem invariante_get {K V : Type} [DecidableEq K]
    {cache : LRUCache K V} {c : Nat} {m : List K}
    (hi : InvarianteLRU cache c m) (k : K) (agora : Nat) :
    InvarianteLRU ((cache_get cache k agora).2) c
      (lruTouch (V := V) c m (.get k)) := by
  obtain ⟨hc, hm, ht, hl⟩ := hi
  simp only [chavesDe] at hm
  cases hb : buscarRemover cache.entries k with
  | none =>
    have hkm : k ∉ m := by
      rw [← hm]
      exact (buscarRemover_eq_none cache.entries k).mp hb
    have : (cache_get cache k agora).2 = cache := by simp [cache_get, hb]
    rw [this]
    simp only [lruTouch, if_neg hkm]
    exact ⟨hc, hm, ht, hl⟩
  | some p =>
    obtain ⟨nodo, resto⟩ := p
    obtain ⟨hk1, hk2, hk3, hk4⟩ := buscarRemover_eq_some hb
    have hkm : k ∈ m := by rw [← hm]; exact hk2
    have hget : (cache_get cache k agora).2 =
        { cache with entries := { nodo with timestamp := agora } :: resto } := by
      simp [cache_get, hb]
    refine ⟨by rw [hget]; exact hc, ?_, ?_, ?_⟩
    · rw [hget]
      show ({ nodo with timestamp := agora } :: resto :
          List (CacheNode K V)).map CacheNode.chave = _
      simp only [lruTouch, if_pos hkm, List.map_cons]
      show nodo.chave :: resto.map CacheNode.chave = _
      rw [hk1, hk3, hm]
    · rw [hget]
      show cache.tamanho = resto.length + 1
      omega
    · rw [hget]
      show resto.length + 1 ≤ c
      omega

theorem invariante_run {K V : Type} [DecidableEq K]
    (ops : List (CacheOp K V)) :
    ∀ (cache : LRUCache K V) (c : Nat) (m : List K) (agora : Nat),
      InvarianteLRU cache c m →
      InvarianteLRU (runCache ops cache agora) c (lruModelRun c ops m) := by
  induction ops with
  | nil => intro cache c m agora hi; exact hi
  | cons op resto ih =>
    intro cache c m agora hi
    show InvarianteLRU (runCache resto (aplicarOp cache op agora) (agora + 1)) c
      (lruModelRun c resto (lruTouch c m op))
    apply ih
    cases op with
    | put k v => exact invariante_put hi k v agora
    | get k => exact invariante_get hi k agora

/-- C1 — For every sequence of `cache_put`/`cache_get` operations run from
an empty cache of capacity `c`, the resident keys (head = most recently
used) are exactly the most-recently-touched keys up to capacity as given by
the specification model `lruModelRun` — in particular the key evicted when
a `put` of a new key overflows capacity is the least recently touched one,
the last of the recency list — the `tamanho` counter always equals the
number of resident nodes, and it never exceeds the capacity. -/
theorem lru_invariante (K V : Type) [DecidableEq K]
    (ops : List (CacheOp K V)) (c agora : Nat) :
    chavesDe (runCache ops (criar_cache K V c) agora) = lruModelRun c ops [] ∧
      (runCache ops (criar_cache K V c) agora).tamanho =
        (runCache ops (criar_cache K V c) agora).entries.length ∧
      (runCache ops (criar_cache K V c) agora).tamanho ≤ c := by
  have h0 : InvarianteLRU (criar_cache K V c) c [] := by
    refine ⟨rfl, rfl, rfl, by simp [criar_cache]⟩
  obtain ⟨h1, h2, h3, h4⟩ := invariante_run ops (criar_cache K V c) c [] agora h0
  exact ⟨h2, h3, by omega⟩

/-- C9 witness at a concrete input: overwriting resident key 5. -/
theorem cache_put_existente_witness :
    (5 ∈ (cache_put (criar_cache Nat Nat 2) 5 7 0).entries.map CacheNode.chave) ∧
      (cache_put (cache_put (criar_cache Nat Nat 2) 5 7 0) 5 8 1).tamanho =
        (cache_put (criar_cache Nat Nat 2) 5 7 0).tamanho :=
  ⟨by decide,
    (cache_put_existente (cache_put (criar_cache Nat Nat 2) 5 7 0) 5 8 1 (by decide)).1⟩

/-! ## Asynchronous log pipeline (`src/main.c` lines 307-389)

The `SistemaLog` state is the circular buffer (slot array as a function,
`NULL` = `none`), the producer index `indice_escrita`, the consumer index
`indice_leitura` and the buffer size.  The file handle, the critical
section and the event handle do not affect which records reach the buffer
and are dropped; `rodando` only governs thread termination. -/

def LOG_BUFFER_SIZE : Nat := 1000

structure SistemaLog where
  buffer_log : Nat → Option String
  indice_escrita : Nat
  indice_leitura : Nat
  tamanho_buffer : Nat

/-- `criar_sistema_log` (lines 332-349): `calloc` leaves every slot `NULL`,
both indices start at 0, and the buffer size is `LOG_BUFFER_SIZE`. -/
def criar_sistema_log : SistemaLog :=
  { buffer_log := fun _ => none
    indice_escrita := 0
    indice_leitura := 0
    tamanho_buffer := LOG_BUFFER_SIZE }

/-- The enqueue section of `escrever_log` (lines 364-371): compute the next
producer index modulo the buffer size; when it would collide with the
consumer index the record is silently dropped, otherwise the record is
stored at the current producer slot and the index advances.  `registro`
stands for the already-formatted timestamped line. -/
def escrever_log (log : SistemaLog) (registro : String) : SistemaLog :=
  let proximo := (log.indice_escrita + 1) % log.tamanho_buffer
  if proximo = log.indice_leitura then log
  else
    { log with
        buffer_log := fun i =>
          if i = log.indice_escrita then some registro else log.buffer_log i
        indice_escrita := proximo }

/-- One iteration of the drain loop of `thread_logger_func`
(lines 317-326): when the buffer is non-empty, flush and free the record at
the consumer slot (it becomes `NULL`) and advance the consumer index modulo
the buffer size. -/
def consumir_registro (log : SistemaLog) : SistemaLog :=
  if log.indice_leitura = log.indice_escrita then log
  else
    { log with
        buffer_log := fun i =>
          if i = log.indice_leitura then none else log.buffer_log i
        indice_leitura := (log.indice_leitura + 1) % log.tamanho_buffer }

/-- An interleaving of producer emissions and consumer drain steps. -/
inductive LogOp
  | emitir (registro : String)
  | consumir

def runLog : List LogOp → SistemaLog → SistemaLog
  | [], log => log
  | .emitir registro :: resto, log => runLog resto (escrever_log log registro)
  | .consumir :: resto, log => runLog resto (consumir_registro log)

/-- Number of records currently resident in the buffer (non-`NULL` slots). -/
def contarPendentes (log : SistemaLog) : Nat :=
  ((Finset.range log.tamanho_buffer).filter
    (fun i => (log.buffer_log i).isSome)).card

/-- Circular-interval membership: slot `i` lies in the pending region
between consumer index `l` (inclusive) and producer index `e` (exclusive). -/
def emFila (l e i : Nat) : Prop :=
  (l ≤ e ∧ l ≤ i ∧ i < e) ∨ (e < l ∧ (i < e ∨ l ≤ i))

/-- The structural invariant of the circular buffer. -/
def LogInv (log : SistemaLog) : Prop :=
  0 < log.tamanho_buffer ∧
    log.indice_escrita < log.tamanho_buffer ∧
    log.indice_leitura < log.tamanho_buffer ∧
    ∀ i, (log.buffer_log i).isSome = true →
      i < log.tamanho_buffer ∧ emFila log.indice_leitura log.indice_escrita i

theorem logInv_criar : LogInv criar_sistema_log := by
  refine ⟨by decide, by decide, by decide, ?_⟩
  intro i h
  simp [criar_sistema_log] at h

theorem mod_succ_cases {e t : Nat} (he : e < t) :
    (e + 1) % t = e + 1 ∧ e + 1 < t ∨ (e + 1) % t = 0 ∧ e + 1 = t := by
  rcases Nat.lt_or_ge (e + 1) t with h | h
  · exact Or.inl ⟨Nat.mod_eq_of_lt h, h⟩
  · have : e + 1 = t := by omega
    exact Or.inr ⟨by rw [this]; exact Nat.mod_self t, this⟩

theorem logInv_escrever (log : SistemaLog) (registro : String)
    (hi : LogInv log) : LogInv (escrever_log log registro) := by
  obtain ⟨ht, he, hl, hbuf⟩ := hi
  unfold escrever_log
  by_cases hfull : (log.indice_escrita + 1) % log.tamanho_buffer = log.indice_leitura
  · simpa [hfull] using ⟨ht, he, hl, hbuf⟩
  · simp only [if_neg hfull]
    refine ⟨ht, Nat.mod_lt _ ht, hl, ?_⟩
    intro i hsome
    simp only at hsome
    rcases mod_succ_cases he with ⟨hm, hlt⟩ | ⟨hm, heq⟩ <;>
      by_cases hie : i = log.indice_escrita
    · subst hie
      refine ⟨he, ?_⟩
      rw [hm] at hfull ⊢
      simp only [emFila]
      omega
    · rw [if_neg hie] at hsome
      obtain ⟨h1, h2⟩ := hbuf i hsome
      refine ⟨h1, ?_⟩
      rw [hm] at hfull ⊢
      simp only [emFila] at h2 ⊢
      omega
    · subst hie
      refine ⟨he, ?_⟩
      rw [hm] at hfull ⊢
      simp only [emFila]
      omega
    · rw [if_neg hie] at hsome
      obtain ⟨h1, h2⟩ := hbuf i hsome
      refine ⟨h1, ?_⟩
      rw [hm] at hfull ⊢
      simp only [emFila] at h2 ⊢
      omega

theorem logInv_consumir (log : SistemaLog) (hi : LogInv log) :
    LogInv (consumir_registro log) := by
  obtain ⟨ht, he, hl, hbuf⟩ := hi
  unfold consumir_registro
  by_cases hvazio : log.indice_leitura = log.indice_escrita
  · simpa [hvazio] using ⟨ht, he, hl, hbuf⟩
  · simp only [if_neg hvazio]
    refine ⟨ht, he, Nat.mod_lt _ ht, ?_⟩
    intro i hsome
    simp only at hsome
    by_cases hil : i = log.indice_leitura
    · rw [if_pos hil] at hsome
      cases hsome
    · rw [if_neg hil] at hsome
      obtain ⟨h1, h2⟩ := hbuf i hsome
      refine ⟨h1, ?_⟩
      rcases mod_succ_cases hl with ⟨hm, hlt⟩ | ⟨hm, heq⟩ <;>
        rw [hm] <;> simp only [emFila] at h2 ⊢ <;> omega

theorem logInv_run (ops : List LogOp) :
    ∀ log : SistemaLog, LogInv log → LogInv (runLog ops log) := by
  induction ops with
  | nil => intro log hi; exact hi
  | cons op resto ih =>
    intro log hi
    cases op with
    | emitir registro => exact ih _ (logInv_escrever log registro hi)
    | consumir => exact ih _ (logInv_consumir log hi)

/-- In a state satisfying the invariant, the producer slot is empty. -/
theorem slot_escrita_vazio {log : SistemaLog} (hi : LogInv log) :
    log.buffer_log log.indice_escrita = none := by
  obtain ⟨ht, he, hl, hbuf⟩ := hi
  cases hcase : log.buffer_log log.indice_escrita with
  | none => rfl
  | some registro =>
    exfalso
    have := (hbuf log.indice_escrita (by rw [hcase]; rfl)).2
    simp only [emFila] at this
    omega

theorem contarPendentes_le {log : SistemaLog} (hi : LogInv log) :
    contarPendentes log ≤ log.tamanho_buffer - 1 := by
  obtain ⟨ht, he, hl, hbuf⟩ := hi
  have hsub : (Finset.range log.tamanho_buffer).filter
      (fun i => (log.buffer_log i).isSome) ⊆
      (Finset.range log.tamanho_buffer).erase log.indice_escrita := by
    intro i hmem
    rw [Finset.mem_filter] at hmem
    obtain ⟨h1, h2⟩ := hbuf i hmem.2
    rw [Finset.mem_erase]
    refine ⟨?_, hmem.1⟩
    intro hcon
    subst hcon
    simp only [emFila] at h2
    omega
  calc contarPendentes log
      ≤ ((Finset.range log.tamanho_buffer).erase log.indice_escrita).card :=
        Finset.card_le_card hsub
    _ = log.tamanho_buffer - 1 := by
        rw [Finset.card_erase_of_mem (Finset.mem_range.mpr he), Finset.card_range]

/-- In a state satisfying the invariant, an emission adds exactly one
pending record unless the buffer is full, in which case it adds none. -/
theorem contarPendentes_escrever {log : SistemaLog} (hi : LogInv log)
    (registro : String) :
    contarPendentes (escrever_log log registro) =
      if (log.indice_escrita + 1) % log.tamanho_buffer = log.indice_leitura
      then contarPendentes log else contarPendentes log + 1 := by
  by_cases hfull : (log.indice_escrita + 1) % log.tamanho_buffer = log.indice_leitura
  · rw [if_pos hfull]
    unfold escrever_log
    rw [if_pos hfull]
  · rw [if_neg hfull]
    obtain ⟨ht, he, hl, hbuf⟩ := hi
    have hvazio : log.buffer_log log.indice_escrita = none :=
      slot_escrita_vazio ⟨ht, he, hl, hbuf⟩
    unfold escrever_log contarPendentes
    rw [if_neg hfull]
    simp only
    have hset : (Finset.range log.tamanho_buffer).filter
        (fun i => (if i = log.indice_escrita then some registro
                   else log.buffer_log i).isSome) =
        insert log.indice_escrita
          ((Finset.range log.tamanho_buffer).filter
            (fun i => (log.buffer_log i).isSome)) := by
      ext i
      simp only [Finset.mem_filter, Finset.mem_insert, Finset.mem_range]
      by_cases hie : i = log.indice_escrita
      · subst hie
        simp [he]
      · simp [hie]
    rw [hset, Finset.card_insert_of_not_mem]
    simp [hvazio]

/-! ### Claim C8: one slot of the circular buffer always stays free -/

/-- C8 — In every state of the log pipeline reachable by any interleaving
of emissions and consumer drain steps from the freshly created system, at
most `tamanho_buffer - 1` records are buffered, and an emission stores its
record exactly when `(indice_escrita + 1) % tamanho_buffer` differs from
`indice_leitura`: when they collide the record count stays put (the record
is dropped), otherwise it grows by one. -/
theorem log_um_slot_sempre_livre (ops : List LogOp) :
    contarPendentes (runLog ops criar_sistema_log) ≤
      (runLog ops criar_sistema_log).tamanho_buffer - 1 ∧
      ∀ registro,
        contarPendentes (escrever_log (runLog ops criar_sistema_log) registro) =
          if ((runLog ops criar_sistema_log).indice_escrita + 1) %
              (runLog ops criar_sistema_log).tamanho_buffer =
              (runLog ops criar_sistema_log).indice_leitura
          then contarPendentes (runLog ops criar_sistema_log)
          else contarPendentes (runLog ops criar_sistema_log) + 1 := by
  have hi := logInv_run ops criar_sistema_log logInv_criar
  exact ⟨contarPendentes_le hi, fun registro => contarPendentes_escrever hi registro⟩

/-! ### Claim C2: a full buffer drops records without blocking -/

/-- `n` successive emissions of the same record with no consumer steps. -/
def emitirVarios (registro : String) : Nat → SistemaLog → SistemaLog
  | 0, log => log
  | n + 1, log => emitirVarios registro n (escrever_log log registro)

/-- Description of the state after only emissions from a fresh system:
consumer index still 0, producer index and pending slots saturating at
`LOG_BUFFER_SIZE - 1`. -/
def EstadoSoEmissoes (log : SistemaLog) (m : Nat) : Prop :=
  log.tamanho_buffer = LOG_BUFFER_SIZE ∧
    log.indice_leitura = 0 ∧
    log.indice_escrita = m ∧
    ∀ i, (log.buffer_log i).isSome = true ↔ i < m

theorem emitirVarios_estado (registro : String) :
    ∀ (n : Nat) (log : SistemaLog) (m : Nat),
      m ≤ LOG_BUFFER_SIZE - 1 → EstadoSoEmissoes log m →
      EstadoSoEmissoes (emitirVarios registro n log)
        (min (m + n) (LOG_BUFFER_SIZE - 1)) := by
  intro n
  induction n with
  | zero =>
    intro log m hm hd
    simpa [min_eq_left, Nat.add_zero, Nat.min_eq_left hm] using hd
  | succ n ih =>
    intro log m hm hd
    obtain ⟨ht, hl, he, hbuf⟩ := hd
    show EstadoSoEmissoes (emitirVarios registro n (escrever_log log registro)) _
    by_cases hcheio : m = LOG_BUFFER_SIZE - 1
    · -- the buffer is full: the emission is dropped
      have hfull : (log.indice_escrita + 1) % log.tamanho_buffer =
          log.indice_leitura := by
        rw [he, ht, hl, hcheio]
        simp [LOG_BUFFER_SIZE]
      have hdrop : escrever_log log registro = log := by
        unfold escrever_log
        rw [if_pos hfull]
      rw [hdrop]
      have := ih log m hm ⟨ht, hl, he, hbuf⟩
      have harith : min (m + n) (LOG_BUFFER_SIZE - 1) =
          min (m + (n + 1)) (LOG_BUFFER_SIZE - 1) := by
        subst hcheio
        omega
      rwa [harith] at this
    · -- room remains: the record is stored at slot `m`
      have hmlt : m < LOG_BUFFER_SIZE - 1 := by omega
      have hnaofull : ¬ ((log.indice_escrita + 1) % log.tamanho_buffer =
          log.indice_leitura) := by
        rw [he, ht, hl]
        have : (m + 1) % LOG_BUFFER_SIZE = m + 1 :=
          Nat.mod_eq_of_lt (by simp only [LOG_BUFFER_SIZE] at *; omega)
        rw [this]
        omega
      have hstep : EstadoSoEmissoes (escrever_log log registro) (m + 1) := by
        unfold escrever_log
        rw [if_neg hnaofull]
        refine ⟨ht, hl, ?_, ?_⟩
        · simp only [he, ht]
          exact Nat.mod_eq_of_lt (by simp only [LOG_BUFFER_SIZE] at *; omega)
        · intro i
          simp only [he]
          by_cases hie : i = m
          · subst hie
            simp
          · rw [if_neg hie]
            rw [hbuf i]
            omega
      have := ih (escrever_log log registro) (m + 1) (by omega) hstep
      have harith : min (m + 1 + n) (LOG_BUFFER_SIZE - 1) =
          min (m + (n + 1)) (LOG_BUFFER_SIZE - 1) := by omega
      rwa [harith] at this

theorem estado_inicial_so_emissoes : EstadoSoEmissoes criar_sistema_log 0 := by
  refine ⟨rfl, rfl, rfl, ?_⟩
  intro i
  simp [criar_sistema_log]

theorem contarPendentes_de_estado {log : SistemaLog} {m : Nat}
    (hm : m ≤ LOG_BUFFER_SIZE - 1) (hd : EstadoSoEmissoes log m) :
    contarPendentes log = m := by
  obtain ⟨ht, hl, he, hbuf⟩ := hd
  unfold contarPendentes
  rw [ht]
  have : (Finset.range LOG_BUFFER_SIZE).filter
      (fun i => (log.buffer_log i).isSome) = Finset.range m := by
    ext i
    simp only [Finset.mem_filter, Finset.mem_range]
    constructor
    · intro h
      exact (hbuf i).mp h.2
    · intro h
      refine ⟨?_, (hbuf i).mpr h⟩
      simp only [LOG_BUFFER_SIZE] at *
      omega
  rw [this, Finset.card_range]

theorem pendentes_apos_1001 :
    contarPendentes (emitirVarios "registro" 1001 criar_sistema_log) = 999 := by
  have := emitirVarios_estado "registro" 1001 criar_sistema_log 0
    (by simp [LOG_BUFFER_SIZE]) estado_inicial_so_emissoes
  have h999 : min (0 + 1001) (LOG_BUFFER_SIZE - 1) = 999 := by
    simp [LOG_BUFFER_SIZE]
  rw [h999] at this
  exact contarPendentes_de_estado (by simp [LOG_BUFFER_SIZE]) this

/-- C2 counterexample — Enqueueing 1001 records into the freshly created
1000-slot buffer while the consumer drains none leaves 999 records stored,
so exactly two records were dropped, not one as the claim states. -/
theorem c2_contraexemplo_dois_descartados :
    contarPendentes (emitirVarios "registro" 1001 criar_sistema_log) = 999 ∧
      1001 - contarPendentes (emitirVarios "registro" 1001 criar_sistema_log) = 2 := by
  have h := pendentes_apos_1001
  exact ⟨h, by rw [h]⟩

/-- C2 (amended) — `escrever_log` never blocks the producer: when the
buffer is full it silently drops the record, returning the state unchanged;
enqueueing 1001 records into the 1000-slot buffer while the consumer drains
none stores 999 of them, i.e. exactly two records are dropped (the circular
buffer keeps one slot permanently free, so its usable capacity is 999). -/
theorem escrever_log_nunca_bloqueia :
    (∀ (log : SistemaLog) (registro : String),
        (log.indice_escrita + 1) % log.tamanho_buffer = log.indice_leitura →
        escrever_log log registro = log) ∧
      contarPendentes (emitirVarios "registro" 1001 criar_sistema_log) = 999 ∧
      1001 - contarPendentes (emitirVarios "registro" 1001 criar_sistema_log) = 2 := by
  refine ⟨?_, pendentes_apos_1001, by rw [pendentes_apos_1001]⟩
  intro log registro hfull
  unfold escrever_log
  rw [if_pos hfull]

/-- A concrete full two-slot log state for the C2 witness. -/
def logCheioExemplo : SistemaLog :=
  { buffer_log := fun i => if i = 0 then some "a" else none
    indice_escrita := 1
    indice_leitura := 0
    tamanho_buffer := 2 }

/-- C2 witness at a concrete input: a full buffer drops the record. -/
theorem escrever_log_nunca_bloqueia_witness :
    (logCheioExemplo.indice_escrita + 1) % logCheioExemplo.tamanho_buffer =
        logCheioExemplo.indice_leitura ∧
      escrever_log logCheioExemplo "x" = logCheioExemplo :=
  ⟨rfl, escrever_log_nunca_bloqueia.1 logCheioExemplo "x" rfl⟩

/-! ## Plugin registry and request pipeline (`src/main.c` lines 420-533)

The observable actions of the handler — semaphore operations, log
emissions, plugin invocations, the response `send` and the socket close —
are recorded as an explicit event trace in program order.  A plugin is its
name plus whether its `process` pointer is non-`NULL` (`registrar_plugin`
never inspects either; `executar_plugins` checks `p->process`). -/

def MAX_PLUGINS : Nat := 10

structure Plugin where
  nome : String
  temProcess : Bool
deriving DecidableEq

structure SistemaPlugins where
  plugins : List Plugin
deriving DecidableEq

inductive Evento
  | adquirirSemaforo
  | liberarSemaforo
  | registroLog (msg : String)
  | invocarPlugin (nome : String) (dados : String)
  | enviarResposta (resposta : String)
  | fecharSocket
deriving DecidableEq

def ehLiberar : Evento → Bool
  | .liberarSemaforo => true
  | _ => false

def ehEnvio : Evento → Bool
  | .enviarResposta _ => true
  | _ => false

def ehRegistroLog : Evento → Bool
  | .registroLog _ => true
  | _ => false

def ehInvocar : Evento → Bool
  | .invocarPlugin _ _ => true
  | _ => false

/-- `registrar_plugin` (lines 428-436): while fewer than `MAX_PLUGINS`
extensions are registered the plugin is stored at the next array index
(i.e. appended at the end) and the registration is logged; otherwise the
body does nothing at all — no log, no error, registry untouched. -/
def registrar_plugin (sp : SistemaPlugins) (p : Plugin) :
    SistemaPlugins × List Evento :=
  if sp.plugins.length < MAX_PLUGINS then
    (⟨sp.plugins ++ [p]⟩, [.registroLog ("Plugin registrado: " ++ p.nome)])
  else (sp, [])

/-- `executar_plugins` (lines 472-482): iterate the registered plugins in
index order, invoking `process` with the raw payload whenever the pointer
is non-`NULL`. -/
def executar_plugins (sp : SistemaPlugins) (dados : String) : List Evento :=
  (sp.plugins.filter (fun p => p.temProcess)).map
    (fun p => .invocarPlugin p.nome dados)

/-! ## Optimised multiplication (`src/main.c` lines 485-487 and
`src/unnamed/part_002` lines 95-103)

C `int` values are 32-bit two's complement.  `bitsDe32` is the 32-bit bit
pattern of an integer, `comoInt32` reads a bit pattern back as a signed
value.  The plain variant multiplies the operand patterns and keeps the low
32 bits; the inline-assembly variant is a single `imull`, the low 32 bits
of the full product.  Signed overflow is modelled as the wraparound these
instructions compute. -/

def bitsDe32 (z : Int) : Nat := (z % (4294967296 : Int)).toNat

def comoInt32 (n : Nat) : Int :=
  if n < 2147483648 then (n : Int) else (n : Int) - 4294967296

/-- `multiplicacao_otimizada` in `src/main.c`: `return a * b;` on 32-bit
`int` operands. -/
def multiplicacao_otimizada (a b : Int) : Int :=
  comoInt32 ((bitsDe32 a * bitsDe32 b) % 4294967296)

/-- `multiplicacao_otimizada` in `src/unnamed/part_002`: the inline-assembly
`imull %%ebx, %%eax` — the low 32 bits of the product, read as signed. -/
def multiplicacao_otimizada_asm (a b : Int) : Int :=
  comoInt32 (bitsDe32 (a * b))

/-! ## Response construction (`src/main.c` lines 490-513)

`snprintf(resposta, sizeof(resposta), ...)` with a 1024-byte buffer writes
at most 1023 characters plus the terminating `NUL`. -/

def snprintfLimite (n : Nat) (s : String) : String := ⟨s.data.take n⟩

/-- The cache-hit response (lines 497-499). -/
def resposta_cache_hit (dados : String) : String :=
  snprintfLimite 1023
    ("HTTP/1.1 200 OK\r\nContent-Type: text/plain\r\n\r\nResposta do CACHE: "
      ++ dados ++ "\n")

/-- The cache-miss (computed) response (lines 502-505). -/
def resposta_cache_miss (buffer : String) : String :=
  snprintfLimite 1023
    ("HTTP/1.1 200 OK\r\nContent-Type: text/plain\r\n\r\nProcessado: "
      ++ buffer ++ "\nMultiplicacao 7x8 = "
      ++ toString (multiplicacao_otimizada 7 8) ++ "\n")

/-- The server state a worker sees: the shared cache and plugin registry. -/
structure Servidor where
  cache : LRUCache String String
  sistemaPlugins : SistemaPlugins

/-- `processar_requisicao_distribuida` (lines 490-513), in program order:
log the request, consult the cache with the raw payload as key; on a hit
build the cache response and log the hit, on a miss build the computed
response, store it under the payload key and log the miss; then, when the
registry is non-empty, run every plugin on the raw payload; finally send
the response. -/
def processar_requisicao_distribuida (buffer : String) (s : Servidor)
    (agora : Nat) : Servidor × List Evento :=
  match cache_get s.cache buffer agora with
  | (some dados, cache2) =>
      ({ s with cache := cache2 },
        [.registroLog "Processando requisicao",
         .registroLog ("Cache HIT: " ++ buffer)]
        ++ (if 0 < s.sistemaPlugins.plugins.length
            then executar_plugins s.sistemaPlugins buffer else [])
        ++ [.enviarResposta (resposta_cache_hit dados)])
  | (none, cache2) =>
      let resposta := resposta_cache_miss buffer
      ({ s with cache := cache_put cache2 buffer resposta agora },
        [.registroLog "Processando requisicao",
         .registroLog ("Cache MISS: " ++ buffer)]
        ++ (if 0 < s.sistemaPlugins.plugins.length
            then executar_plugins s.sistemaPlugins buffer else [])
        ++ [.enviarResposta resposta])

/-- The outcome of the single `recv` call (line 520): a payload
(`bytes_recebidos > 0`), an empty read (`== 0`, peer closed), or an error
(`< 0`). -/
inductive ResultadoRecv
  | dados (buffer : String)
  | vazio
  | erro

def recvComSucesso : ResultadoRecv → Bool
  | .dados _ => true
  | _ => false

/-- `gerenciador_conexoes` (lines 516-533): wait on the pool semaphore,
perform one `recv`; a positive read is processed, an empty read logs
"Cliente desconectou", a failed read logs "Erro ao receber dados"; on every
path the semaphore is then released once and the socket closed. -/
def gerenciador_conexoes (r : ResultadoRecv) (s : Servidor) (agora : Nat) :
    Servidor × List Evento :=
  let corpo : Servidor × List Evento :=
    match r with
    | .dados buffer => processar_requisicao_distribuida buffer s agora
    | .vazio => (s, [.registroLog "Cliente desconectou"])
    | .erro => (s, [.registroLog "Erro ao receber dados"])
  (corpo.1, [.adquirirSemaforo] ++ corpo.2 ++ [.liberarSemaforo, .fecharSocket])

/-! ### Claim C5: the token is released on every exit path -/

theorem filter_invocacoes_eq_nil (l : List Plugin) (d : String)
    (q : Evento → Bool)
    (hq : ∀ nome dados, q (Evento.invocarPlugin nome dados) = false) :
    ((l.filter (fun p => p.temProcess)).map
      (fun p => Evento.invocarPlugin p.nome d)).filter q = [] := by
  induction l with
  | nil => rfl
  | cons p resto ih =>
    by_cases hp : p.temProcess
    · simp [List.filter_cons, hp, hq, ih]
    · simp [List.filter_cons, hp, ih]

theorem filter_guarda_plugins_eq_nil (sp : SistemaPlugins) (d : String)
    (q : Evento → Bool)
    (hq : ∀ nome dados, q (Evento.invocarPlugin nome dados) = false) :
    ((if 0 < sp.plugins.length then executar_plugins sp d else []).filter q) = [] := by
  by_cases hpl : 0 < sp.plugins.length
  · rw [if_pos hpl]
    exact filter_invocacoes_eq_nil sp.plugins d q hq
  · rw [if_neg hpl]
    rfl

/-- C5 — On every exit path of the connection handler — successful read,
empty read, read error — the semaphore acquired at entry is released
exactly once; a successful read sends exactly one response, while an empty
read or a read error sends none and instead logs the event (one log record
against the two of the processing path). -/
theorem token_liberado_em_toda_saida (r : ResultadoRecv) (s : Servidor)
    (agora : Nat) :
    ((gerenciador_conexoes r s agora).2.filter ehLiberar).length = 1 ∧
      ((gerenciador_conexoes r s agora).2.filter ehEnvio).length =
        (if recvComSucesso r then 1 else 0) ∧
      ((gerenciador_conexoes r s agora).2.filter ehRegistroLog).length =
        (if recvComSucesso r then 2 else 1) := by
  cases r with
  | vazio =>
    refine ⟨rfl, rfl, rfl⟩
  | erro =>
    refine ⟨rfl, rfl, rfl⟩
  | dados buffer =>
    have hlib := filter_guarda_plugins_eq_nil s.sistemaPlugins buffer ehLiberar
      (fun _ _ => rfl)
    have henv := filter_guarda_plugins_eq_nil s.sistemaPlugins buffer ehEnvio
      (fun _ _ => rfl)
    have hreg := filter_guarda_plugins_eq_nil s.sistemaPlugins buffer ehRegistroLog
      (fun _ _ => rfl)
    unfold gerenciador_conexoes processar_requisicao_distribuida
    rcases hget : cache_get s.cache buffer agora with ⟨opt, cache2⟩
    cases opt with
    | some dados =>
      simp only [hget, recvComSucesso, if_pos, List.filter_append, List.filter_cons,
        List.filter_nil, ehLiberar, ehEnvio, ehRegistroLog, List.length_append,
        hlib, henv, hreg]
      refine ⟨rfl, rfl, rfl⟩
    | none =>
      simp only [hget, recvComSucesso, if_pos, List.filter_append, List.filter_cons,
        List.filter_nil, ehLiberar, ehEnvio, ehRegistroLog, List.length_append,
        hlib, henv, hreg]
      refine ⟨rfl, rfl, rfl⟩

/-! ### Claim C6: every plugin runs on the raw payload, in order, before
the response is sent -/

/-- C6 — When the read succeeds, the trace of
`processar_requisicao_distribuida` is a prefix containing no plugin
invocation, followed by one `process` invocation per registered extension
carrying the raw payload in registration order, followed *last* by the
response send; with an empty registry the invocation block is empty, so no
extension runs. -/
theorem plugins_invocados_em_ordem (buffer : String) (s : Servidor)
    (agora : Nat)
    (h : ∀ p ∈ s.sistemaPlugins.plugins, p.temProcess = true) :
    ∃ pre resposta,
      (processar_requisicao_distribuida buffer s agora).2 =
        pre ++ (s.sistemaPlugins.plugins.map
          (fun p => Evento.invocarPlugin p.nome buffer)) ++
          [Evento.enviarResposta resposta] ∧
      ∀ e ∈ pre, ehInvocar e = false := by
  have hexec : (if 0 < s.sistemaPlugins.plugins.length
      then executar_plugins s.sistemaPlugins buffer else []) =
      s.sistemaPlugins.plugins.map
        (fun p => Evento.invocarPlugin p.nome buffer) := by
    by_cases hpl : 0 < s.sistemaPlugins.plugins.length
    · rw [if_pos hpl]
      unfold executar_plugins
      rw [List.filter_eq_self.mpr h]
    · rw [if_neg hpl]
      have hnil : s.sistemaPlugins.plugins = [] := by
        cases hc : s.sistemaPlugins.plugins with
        | nil => rfl
        | cons a l => rw [hc] at hpl; simp at hpl
      rw [hnil]
      rfl
  unfold processar_requisicao_distribuida
  rcases hget : cache_get s.cache buffer agora with ⟨opt, cache2⟩
  cases opt with
  | some dados =>
    refine ⟨[.registroLog "Processando requisicao",
             .registroLog ("Cache HIT: " ++ buffer)],
            resposta_cache_hit dados, ?_, ?_⟩
    · simp only [hget, hexec]
    · intro e he
      rcases List.mem_cons.mp he with rfl | he
      · rfl
      · rcases List.mem_cons.mp he with rfl | he
        · rfl
        · simp at he
  | none =>
    refine ⟨[.registroLog "Processando requisicao",
             .registroLog ("Cache MISS: " ++ buffer)],
            resposta_cache_miss buffer, ?_, ?_⟩
    · simp only [hget, hexec]
    · intro e he
      rcases List.mem_cons.mp he with rfl | he
      · rfl
      · rcases List.mem_cons.mp he with rfl | he
        · rfl
        · simp at he

/-- A concrete one-plugin server for the C6 witness. -/
def servidorExemplo : Servidor :=
  { cache := criar_cache String String 2
    sistemaPlugins := ⟨[⟨"p1", true⟩]⟩ }

/-- C6 witness at a concrete input. -/
theorem plugins_invocados_em_ordem_witness :
    (∀ p ∈ servidorExemplo.sistemaPlugins.plugins, p.temProcess = true) ∧
      ∃ pre resposta,
        (processar_requisicao_distribuida "hello" servidorExemplo 0).2 =
          pre ++ (servidorExemplo.sistemaPlugins.plugins.map
            (fun p => Evento.invocarPlugin p.nome "hello")) ++
            [Evento.enviarResposta resposta] ∧
        ∀ e ∈ pre, ehInvocar e = false :=
  ⟨by decide, plugins_invocados_em_ordem "hello" servidorExemplo 0 (by decide)⟩

/-! ### Claim C7: registry capacity -/

/-- C7 (amended) — `registrar_plugin` accepts an extension exactly while
fewer than `MAX_PLUGINS` (10) are registered, appending it at the end and
logging the registration; at or beyond capacity the extension is rejected
with *no* observable action at all — no log record, no error surfaced —
and the registry contents are unchanged. -/
theorem registrar_plugin_capacidade (sp : SistemaPlugins) (p : Plugin) :
    (sp.plugins.length < MAX_PLUGINS →
        (registrar_plugin sp p).1.plugins = sp.plugins ++ [p] ∧
        (registrar_plugin sp p).2 =
          [.registroLog ("Plugin registrado: " ++ p.nome)]) ∧
      (MAX_PLUGINS ≤ sp.plugins.length →
        (registrar_plugin sp p).1 = sp ∧ (registrar_plugin sp p).2 = []) := by
  constructor
  · intro h
    unfold registrar_plugin
    rw [if_pos h]
    exact ⟨rfl, rfl⟩
  · intro h
    unfold registrar_plugin
    rw [if_neg (by omega)]
    exact ⟨rfl, rfl⟩

/-- C7 witness at a concrete input: registering into an empty registry. -/
theorem registrar_plugin_capacidade_witness :
    (⟨[]⟩ : SistemaPlugins).plugins.length < MAX_PLUGINS ∧
      (registrar_plugin ⟨[]⟩ ⟨"p", true⟩).1.plugins = [] ++ [⟨"p", true⟩] :=
  ⟨by decide, ((registrar_plugin_capacidade ⟨[]⟩ ⟨"p", true⟩).1 (by decide)).1⟩

/-- A registry already holding `MAX_PLUGINS` extensions. -/
def registroCheio : SistemaPlugins := ⟨List.replicate 10 ⟨"p", true⟩⟩

/-- C7 counterexample — Registering an eleventh extension into a full
registry produces no log record whatsoever (and leaves the registry
unchanged), refuting the claim that the rejection is logged. -/
theorem c7_contraexemplo_rejeicao_silenciosa :
    (registrar_plugin registroCheio ⟨"novo", true⟩).1 = registroCheio ∧
      (registrar_plugin registroCheio ⟨"novo", true⟩).2 = [] := by
  exact ⟨rfl, rfl⟩

/-! ### Claim C10: the multiplication and the "= 56" in the response -/

/-- Byte-string prefix test. -/
def comecaCom : List Char → List Char → Bool
  | [], _ => true
  | _ :: _, [] => false
  | p :: ps, c :: cs => p == c && comecaCom ps cs

/-- Byte-string substring test. -/
def contemSub (pat : List Char) : List Char → Bool
  | [] => comecaCom pat []
  | c :: resto => comecaCom pat (c :: resto) || contemSub pat resto

theorem contemSub_append_dir (pat l2 : List Char) (l1 : List Char)
    (h : contemSub pat l2 = true) : contemSub pat (l1 ++ l2) = true := by
  induction l1 with
  | nil => simpa using h
  | cons c resto ih => simp [contemSub, ih]

theorem comoInt32_emod (n : Nat) :
    comoInt32 n % 4294967296 = (n : Int) % 4294967296 := by
  unfold comoInt32
  split <;> omega

theorem bitsDe32_cast (z : Int) : (bitsDe32 z : Int) = z % 4294967296 :=
  Int.toNat_of_nonneg (Int.emod_nonneg z (by norm_num))

theorem multiplicacao_congruente (a b : Int) :
    multiplicacao_otimizada a b % 4294967296 = (a * b) % 4294967296 := by
  unfold multiplicacao_otimizada
  rw [comoInt32_emod, Int.natCast_mod]
  push_cast
  rw [bitsDe32_cast, bitsDe32_cast, Int.emod_emod_of_dvd _ dvd_rfl,
    ← Int.mul_emod]

theorem asm_igual_plana (a b : Int) :
    multiplicacao_otimizada_asm a b = multiplicacao_otimizada a b := by
  unfold multiplicacao_otimizada_asm multiplicacao_otimizada
  congr 1
  apply Nat.cast_injective (R := Int)
  rw [bitsDe32_cast, Int.natCast_mod]
  push_cast
  rw [bitsDe32_cast, bitsDe32_cast]
  exact Int.mul_emod a b _

theorem resposta_curta_contem_56 (buffer : String)
    (hlen : buffer.data.length ≤ 942) :
    contemSub ("56".data) (resposta_cache_miss buffer).data = true := by
  have h1 : ("HTTP/1.1 200 OK\r\nContent-Type: text/plain\r\n\r\nProcessado: " :
      String).data.length = 57 := rfl
  have h2 : ("\nMultiplicacao 7x8 = " : String).data.length = 21 := rfl
  have h3 : (toString (multiplicacao_otimizada 7 8)).data.length = 2 := by decide
  have h4 : ("\n" : String).data.length = 1 := rfl
  unfold resposta_cache_miss snprintfLimite
  show contemSub ("56".data) (List.take 1023 _) = true
  rw [List.take_of_length_le]
  · simp only [String.data_append, List.append_assoc]
    apply contemSub_append_dir
    apply contemSub_append_dir
    apply contemSub_append_dir
    decide
  · simp only [String.data_append, List.length_append, h1, h2, h3, h4]
    omega

/-- C10 (amended) — Both variants of `multiplicacao_otimizada` (the plain
`a * b` and the inline-assembly `imull`) agree and return the product of
their operands modulo `2 ^ 32`; in particular `7 * 8` evaluates to 56, and
the computed-response body embeds "56" whenever the payload is short enough
(at most 942 bytes) for the formatted response to fit within the 1024-byte
`snprintf` buffer. -/
theorem multiplicacao_mod_2_32 :
    (∀ a b : Int,
        multiplicacao_otimizada a b % 4294967296 = (a * b) % 4294967296) ∧
      (∀ a b : Int,
        multiplicacao_otimizada_asm a b = multiplicacao_otimizada a b) ∧
      multiplicacao_otimizada 7 8 = 56 ∧
      (∀ buffer : String, buffer.data.length ≤ 942 →
        contemSub ("56".data) (resposta_cache_miss buffer).data = true) :=
  ⟨multiplicacao_congruente, asm_igual_plana, by decide, resposta_curta_contem_56⟩

/-- C10 witness at a concrete input. -/
theorem multiplicacao_mod_2_32_witness :
    ("hello" : String).data.length ≤ 942 ∧
      contemSub ("56".data) (resposta_cache_miss "hello").data = true :=
  ⟨by decide, multiplicacao_mod_2_32.2.2.2 "hello" (by decide)⟩

/-- A 1000-byte payload, as a single `recv` of up to 1023 bytes can
deliver. -/
def cargaLonga : String := ⟨List.replicate 1000 (Char.ofNat 97)⟩

/-- C10 counterexample — For a 1000-byte payload the formatted response
exceeds the 1024-byte `snprintf` buffer and is truncated before the
multiplication result, so the response body does *not* embed "56": the
claim's "always" fails. -/
theorem c10_contraexemplo_resposta_truncada :
    contemSub ("56".data) (resposta_cache_miss cargaLonga).data = false := by
  decide

end ServidorC
